import Mathlib

/-!
Verification of the recurring cross-exchange arbitrage-scanner pattern of
this repository.  The authoritative detector implementation is
`ArbitrageBot.find_arbitrage_opportunities` in the qwen variant
(`money.py`); the simulated trading engine is `AlphaEngine.execute_trade`
in the gemini variant.  Prices are embedded as rationals; Python
exceptions (in particular `ZeroDivisionError`) are embedded as
`Except Unit`.
-/

/-- Equality of embedded exception results is decidable. -/
instance exceptDecEq {ε α : Type} [DecidableEq ε] [DecidableEq α] :
    DecidableEq (Except ε α)
  | .error e, .error f =>
    if h : e = f then .isTrue (by rw [h]) else .isFalse (by simp [h])
  | .error _, .ok _ => .isFalse (by simp)
  | .ok _, .error _ => .isFalse (by simp)
  | .ok a, .ok b =>
    if h : a = b then .isTrue (by rw [h]) else .isFalse (by simp [h])

namespace ArbitrageBot

/-- One source's quote for a symbol, as stored by `get_market_data`
(the `ask`/`bid` fields of the fetched ticker). -/
structure SymQuote where
  ask : ℚ
  bid : ℚ
deriving DecidableEq

/-- The opportunity dictionary built by `find_arbitrage_opportunities`. -/
structure Opportunity where
  symbol : String
  buy_exchange : String
  sell_exchange : String
  buy_price : ℚ
  sell_price : ℚ
  profit_percent : ℚ
  profit_amount : ℚ
deriving DecidableEq

/-- The module-level `SYMBOLS` list of the qwen variant. -/
def SYMBOLS : List String :=
  ["BTC/USDT", "ETH/USDT", "BNB/USDT", "SOL/USDT", "ADA/USDT"]

/-- The module-level `EXCHANGES` list of the qwen variant. -/
def EXCHANGES : List String :=
  ["binance", "kraken", "coinbasepro", "huobi", "okx"]

/-- `MIN_PROFIT_PERCENT = 0.5` in the qwen variant. -/
def MIN_PROFIT_PERCENT : ℚ := 1/2

/-- `FEE_BUFFER = 0.1` in the qwen variant. -/
def FEE_BUFFER : ℚ := 1/10

/-- Python's `min(keys, key=ask)` over a dict in insertion order: the
first element attaining the minimal ask wins ties. -/
def minByAsk (a : String × SymQuote) : List (String × SymQuote) → String × SymQuote :=
  List.foldl (fun best x => if x.2.ask < best.2.ask then x else best) a

/-- Python's `max(keys, key=bid)` over a dict in insertion order: the
first element attaining the maximal bid wins ties. -/
def maxByBid (a : String × SymQuote) : List (String × SymQuote) → String × SymQuote :=
  List.foldl (fun best x => if best.2.bid < x.2.bid then x else best) a

/-- First-match lookup in an association list, mirroring `symbol in d`
followed by `d[symbol]` on a Python dict. -/
def alistLookup {α : Type} : List (String × α) → String → Option α
  | [], _ => none
  | (k, v) :: rest, key => if k = key then some v else alistLookup rest key

/-- The per-symbol body of `find_arbitrage_opportunities`: `prices` is the
symbol's source→quote dict in insertion order.  With fewer than two
entries the symbol is skipped.  Otherwise the minimum-ask source is the
buy side, the maximum-bid source the sell side; when the sides differ and
`sell_price > buy_price` the profit percentage is computed — a zero
`buy_price` raises `ZeroDivisionError` there, embedded as `.error ()` —
and an opportunity is emitted when it strictly exceeds
`minProfit + FEE_BUFFER`. -/
def processSymbol (sym : String) (quotes : List (String × SymQuote)) (minProfit : ℚ) :
    Except Unit (Option Opportunity) :=
  match quotes with
  | [] => .ok none
  | [_] => .ok none
  | a :: b :: rest =>
    let buy := minByAsk a (b :: rest)
    let sell := maxByBid a (b :: rest)
    if buy.1 ≠ sell.1 ∧ buy.2.ask < sell.2.bid then
      if buy.2.ask = 0 then .error ()
      else
        let profit := (sell.2.bid - buy.2.ask) / buy.2.ask * 100
        if profit > minProfit + FEE_BUFFER then
          .ok (some { symbol := sym, buy_exchange := buy.1, sell_exchange := sell.1,
                      buy_price := buy.2.ask, sell_price := sell.2.bid,
                      profit_percent := profit,
                      profit_amount := sell.2.bid - buy.2.ask })
        else .ok none
    else .ok none

/-- The symbol loop of `find_arbitrage_opportunities`: iterate the
configured symbols, skip those absent from `market_data`, append each
emitted opportunity; an exception in any symbol's body propagates. -/
def goSymbols (md : List (String × List (String × SymQuote))) (minProfit : ℚ) :
    List String → Except Unit (List Opportunity)
  | [] => .ok []
  | s :: ss =>
    match alistLookup md s with
    | none => goSymbols md minProfit ss
    | some quotes =>
      match processSymbol s quotes minProfit with
      | .error e => .error e
      | .ok none => goSymbols md minProfit ss
      | .ok (some o) =>
        match goSymbols md minProfit ss with
        | .error e => .error e
        | .ok rest => .ok (o :: rest)

/-- `ArbitrageBot.find_arbitrage_opportunities`, parameterised by the
configured minimum profit percentage (`MIN_PROFIT_PERCENT` in the
source). -/
def find_arbitrage_opportunities (md : List (String × List (String × SymQuote)))
    (minProfit : ℚ) : Except Unit (List Opportunity) :=
  goSymbols md minProfit SYMBOLS

/-- True when the detector result emits an opportunity for the symbol. -/
def emits : Except Unit (Option Opportunity) → Bool
  | .ok (some _) => true
  | _ => false

/-- All asks appearing anywhere in a market-data mapping are strictly
positive. -/
def allAsksPositive (md : List (String × List (String × SymQuote))) : Bool :=
  md.all fun e => e.2.all fun p => decide (0 < p.2.ask)

/-- A quote is valid in the sense of the spec's Detector description when
neither side is zero or negative. -/
def validQuote (p : String × SymQuote) : Bool :=
  decide (0 < p.2.ask) && decide (0 < p.2.bid)

/-- The per-symbol Detector rule as the spec words it, for comparison with
`processSymbol`: zero/negative quotes are excluded from consideration, the
minimum-ask source is the buy side, the maximum-bid source the sell side,
and an opportunity is emitted iff the sides differ and the profit
percentage is at least the configured minimum plus the fee buffer. -/
def processSymbolSpec (sym : String) (quotes : List (String × SymQuote))
    (minProfit : ℚ) : Option Opportunity :=
  match quotes.filter validQuote with
  | [] => none
  | [_] => none
  | a :: b :: rest =>
    let buy := minByAsk a (b :: rest)
    let sell := maxByBid a (b :: rest)
    if buy.1 ≠ sell.1 ∧
        (sell.2.bid - buy.2.ask) / buy.2.ask * 100 ≥ minProfit + FEE_BUFFER then
      some { symbol := sym, buy_exchange := buy.1, sell_exchange := sell.1,
             buy_price := buy.2.ask, sell_price := sell.2.bid,
             profit_percent := (sell.2.bid - buy.2.ask) / buy.2.ask * 100,
             profit_amount := sell.2.bid - buy.2.ask }
    else none

/-- The inner loop of `get_market_data` for one symbol: try each exchange
in order; a fetch failure (`none`, the embedded per-call exception) is
caught and the pair is simply not added to the symbol's dict. -/
def fetchSymbol (fetch : String → String → Option SymQuote) (sym : String) :
    List (String × SymQuote) :=
  EXCHANGES.foldl
    (fun acc ex =>
      match fetch sym ex with
      | some q => acc ++ [(ex, q)]
      | none => acc)
    []

/-- `ArbitrageBot.get_market_data`, with the network modelled as an oracle
`fetch` returning `none` on any transport failure: every symbol gets an
entry, holding the quotes of exactly the sources whose fetch succeeded. -/
def get_market_data (fetch : String → String → Option SymQuote) :
    List (String × List (String × SymQuote)) :=
  SYMBOLS.foldl (fun acc sym => acc ++ [(sym, fetchSymbol fetch sym)]) []

/-- One fetch-and-detect cycle of `ArbitrageBot.run`: collect market data,
then run the Detector on it. -/
def scanCycle (fetch : String → String → Option SymQuote) (minProfit : ℚ) :
    Except Unit (List Opportunity) :=
  find_arbitrage_opportunities (get_market_data fetch) minProfit

end ArbitrageBot

namespace AlphaEngine

/-- The trading signals produced by `AlphaEngine.analyze_market`. -/
inductive Signal
  | BUY
  | SELL
  | HOLD
  | WAIT
deriving DecidableEq

/-- The mutable fields of `AlphaEngine` touched by `execute_trade`. -/
structure EngineState where
  balance : ℚ
  btc_held : ℚ
  in_position : Bool
  entry_price : ℚ
  total_profit : ℚ
  trades_won : ℕ
  trades_total : ℕ
deriving DecidableEq

/-- `self.take_profit_pct = 0.003`. -/
def take_profit_pct : ℚ := 3/1000

/-- `self.stop_loss_pct = 0.0015`. -/
def stop_loss_pct : ℚ := 15/10000

/-- `AlphaEngine.execute_trade`: a BUY while flat spends
`balance * 0.99 / price * price` of cash and goes long; while in a
position, a SELL signal, the take-profit or the stop-loss threshold on
`pnl_pct` closes it, crediting the full sale value and zeroing the
holding.  The two Python divisions (`/ price` and `/ self.entry_price`)
raise `ZeroDivisionError` on a zero divisor, embedded as `.error ()`. -/
def execute_trade (signal : Signal) (price : ℚ) (st : EngineState) :
    Except Unit EngineState :=
  if signal = .BUY ∧ st.in_position = false then
    if price = 0 then .error ()
    else
      let amount_to_buy := st.balance * (99/100) / price
      let cost := amount_to_buy * price
      .ok { st with btc_held := amount_to_buy,
                    balance := st.balance - cost,
                    entry_price := price,
                    in_position := true }
  else if st.in_position then
    if st.entry_price = 0 then .error ()
    else
      let pnl_pct := (price - st.entry_price) / st.entry_price
      if signal = .SELL ∨ pnl_pct ≥ take_profit_pct ∨ pnl_pct ≤ -stop_loss_pct then
        let sale_value := st.btc_held * price
        let profit := sale_value - st.btc_held * st.entry_price
        .ok { st with balance := st.balance + sale_value,
                      btc_held := 0,
                      in_position := false,
                      total_profit := st.total_profit + profit,
                      trades_total := st.trades_total + 1,
                      trades_won :=
                        if 0 < profit then st.trades_won + 1 else st.trades_won }
      else .ok st
  else .ok st

end AlphaEngine

namespace AlertDedup

/-- Replacement insert into an association list, mirroring dict
assignment `entries[key] = now`. -/
def recordKey : List (String × ℚ) → String → ℚ → List (String × ℚ)
  | [], k, v => [(k, v)]
  | (k2, v2) :: rest, k, v =>
    if k2 = k then (k, v) :: rest else (k2, v2) :: recordKey rest k v

/-- First-match lookup, mirroring `key in entries`. -/
def lookupKey : List (String × ℚ) → String → Option ℚ
  | [], _ => none
  | (k2, v2) :: rest, k => if k2 = k then some v2 else lookupKey rest k

/-- Modelled from the spec: no variant under `src/` implements the Alert
De-duplicator's `should_alert`; only the spec's component contract
describes it.  It returns true and records `now` under `key` if no prior
entry exists or the prior entry is older than the cooldown window, and
returns false otherwise. -/
def should_alert (cooldown : ℚ) (entries : List (String × ℚ)) (key : String)
    (now : ℚ) : Bool × List (String × ℚ) :=
  match lookupKey entries key with
  | none => (true, recordKey entries key now)
  | some prev =>
    if now - prev > cooldown then (true, recordKey entries key now)
    else (false, entries)

end AlertDedup

namespace ScanLoop

/-- What one cycle of the main loop does: completes, raises an exception
that the loop's `except` clause catches, or is interrupted externally
(`KeyboardInterrupt`, which the clause does not catch). -/
inductive CycleOutcome
  | ok
  | err
  | interrupt
deriving DecidableEq

/-- Observable state of the scan loop of `ArbitrageBot.run` /
`AlphaEngine.run`. -/
structure LoopState where
  cyclesCompleted : ℕ
  errorsLogged : ℕ
  backoffSleeps : ℕ
  running : Bool
deriving DecidableEq

/-- The loop before its first iteration. -/
def initLoopState : LoopState :=
  { cyclesCompleted := 0, errorsLogged := 0, backoffSleeps := 0, running := true }

/-- One `while True` iteration: a completed cycle just advances; a cycle
whose body raises is logged, sleeps the backoff interval and advances; an
external interruption ends the loop.  A stopped loop stays stopped. -/
def loopStep (oc : CycleOutcome) (st : LoopState) : LoopState :=
  if st.running then
    match oc with
    | .ok => { st with cyclesCompleted := st.cyclesCompleted + 1 }
    | .err => { st with cyclesCompleted := st.cyclesCompleted + 1,
                        errorsLogged := st.errorsLogged + 1,
                        backoffSleeps := st.backoffSleeps + 1 }
    | .interrupt => { st with running := false }
  else st

/-- The loop state after `n` iterations against a stream of cycle
outcomes. -/
def runLoop (outcomes : ℕ → CycleOutcome) : ℕ → LoopState
  | 0 => initLoopState
  | n + 1 => loopStep (outcomes n) (runLoop outcomes n)

end ScanLoop

namespace ArbitrageBot

/-- Market data of the spec's first scenario: source A bid 100 / ask 101,
source B bid 103 / ask 104, under the first tracked symbol. -/
def mdAB : List (String × List (String × SymQuote)) :=
  [("BTC/USDT", [("A", ⟨101, 100⟩), ("B", ⟨104, 103⟩)])]

/-- The opportunity the detector emits on `mdAB`. -/
def oppAB : Opportunity :=
  { symbol := "BTC/USDT", buy_exchange := "A", sell_exchange := "B",
    buy_price := 101, sell_price := 103, profit_percent := 200/101,
    profit_amount := 2 }

/-- Market data of the spec's second scenario: source A bid 100 / ask 101,
source B bid 100.2 / ask 100.5. -/
def mdAB2 : List (String × List (String × SymQuote)) :=
  [("BTC/USDT", [("A", ⟨101, 100⟩), ("B", ⟨201/2, 501/5⟩)])]

/-- Market data whose symbol has two entries but only one valid non-zero
quote: source a is an all-zero quote, source b is bid 4 / ask 5. -/
def mdZero : List (String × List (String × SymQuote)) :=
  [("BTC/USDT", [("a", ⟨0, 0⟩), ("b", ⟨5, 4⟩)])]

/-- A quote list whose best spread sits exactly on
`MIN_PROFIT_PERCENT + FEE_BUFFER` (0.6%): buy a at 1000, sell b at
1006. -/
def qThreshold : List (String × SymQuote) :=
  [("a", ⟨1000, 999⟩), ("b", ⟨1010, 1006⟩)]

/-- A quote list containing a negative quote (source a) that the code
selects as the buy side, although excluding it would leave a profitable
b→c pair. -/
def qNegative : List (String × SymQuote) :=
  [("a", ⟨-10, -10⟩), ("b", ⟨5, 4⟩), ("c", ⟨6, 100⟩)]

end ArbitrageBot

namespace AlphaEngine

/-- A freshly constructed engine with capital 1000 and no position. -/
def egSt0 : EngineState :=
  { balance := 1000, btc_held := 0, in_position := false, entry_price := 0,
    total_profit := 0, trades_won := 0, trades_total := 0 }

/-- The state after a BUY at price 50 from `egSt0`: 99% of cash spent on
19.8 units. -/
def egSt1 : EngineState :=
  { balance := 10, btc_held := 99/5, in_position := true, entry_price := 50,
    total_profit := 0, trades_won := 0, trades_total := 0 }

end AlphaEngine

namespace ArbitrageBot

/-- The minimum-ask selection returns one of the candidates. -/
theorem minByAsk_mem : ∀ (l : List (String × SymQuote)) (a : String × SymQuote),
    minByAsk a l ∈ a :: l := by
  intro l
  induction l with
  | nil => intro a; simp [minByAsk]
  | cons x l ih =>
    intro a
    have h := ih (if x.2.ask < a.2.ask then x else a)
    have hstep : minByAsk a (x :: l) = minByAsk (if x.2.ask < a.2.ask then x else a) l := rfl
    rw [hstep]
    rcases List.mem_cons.mp h with h1 | h1
    · rw [h1]
      split
      · simp
      · simp
    · simp [h1]

/-- The maximum-bid selection returns one of the candidates. -/
theorem maxByBid_mem : ∀ (l : List (String × SymQuote)) (a : String × SymQuote),
    maxByBid a l ∈ a :: l := by
  intro l
  induction l with
  | nil => intro a; simp [maxByBid]
  | cons x l ih =>
    intro a
    have h := ih (if a.2.bid < x.2.bid then x else a)
    have hstep : maxByBid a (x :: l) = maxByBid (if a.2.bid < x.2.bid then x else a) l := rfl
    rw [hstep]
    rcases List.mem_cons.mp h with h1 | h1
    · rw [h1]
      split
      · simp
      · simp
    · simp [h1]

/-- A successful association-list lookup is a membership. -/
theorem alistLookup_mem {α : Type} :
    ∀ {l : List (String × α)} {k : String} {v : α},
      alistLookup l k = some v → (k, v) ∈ l := by
  intro l
  induction l with
  | nil => intro k v h; simp [alistLookup] at h
  | cons p rest ih =>
    intro k v h
    obtain ⟨k2, v2⟩ := p
    simp only [alistLookup] at h
    split at h
    · rename_i heq
      injection h with h
      subst heq
      subst h
      exact List.mem_cons_self _ _
    · exact List.mem_cons_of_mem _ (ih h)

/-- Everything a successfully emitted opportunity is made of: the fields
are the min-ask/max-bid selection, the two sides differ, the sell bid
strictly exceeds the buy ask, the buy ask is nonzero, and the profit
percentage strictly exceeds the threshold plus the fee buffer. -/
theorem processSymbol_emits_elim {sym : String} {a b : String × SymQuote}
    {rest : List (String × SymQuote)} {minProfit : ℚ} {o : Opportunity}
    (h : processSymbol sym (a :: b :: rest) minProfit = .ok (some o)) :
    o = { symbol := sym,
          buy_exchange := (minByAsk a (b :: rest)).1,
          sell_exchange := (maxByBid a (b :: rest)).1,
          buy_price := (minByAsk a (b :: rest)).2.ask,
          sell_price := (maxByBid a (b :: rest)).2.bid,
          profit_percent := ((maxByBid a (b :: rest)).2.bid - (minByAsk a (b :: rest)).2.ask)
            / (minByAsk a (b :: rest)).2.ask * 100,
          profit_amount := (maxByBid a (b :: rest)).2.bid - (minByAsk a (b :: rest)).2.ask } ∧
    (minByAsk a (b :: rest)).1 ≠ (maxByBid a (b :: rest)).1 ∧
    (minByAsk a (b :: rest)).2.ask < (maxByBid a (b :: rest)).2.bid ∧
    (minByAsk a (b :: rest)).2.ask ≠ 0 ∧
    ((maxByBid a (b :: rest)).2.bid - (minByAsk a (b :: rest)).2.ask)
      / (minByAsk a (b :: rest)).2.ask * 100 > minProfit + FEE_BUFFER := by
  unfold processSymbol at h
  simp only at h
  split_ifs at h with h1 h2 h3
  · injection h with h
    injection h with h
    subst h
    exact ⟨rfl, h1.1, h1.2, h2, h3⟩
  · exact absurd h (by simp)
  · exact absurd h (by simp)

/-- Converse direction: when the code's conditions hold, the opportunity
is emitted with exactly these fields. -/
theorem processSymbol_emits_intro {sym : String} {a b : String × SymQuote}
    {rest : List (String × SymQuote)} {minProfit : ℚ}
    (h1 : (minByAsk a (b :: rest)).1 ≠ (maxByBid a (b :: rest)).1)
    (h2 : (minByAsk a (b :: rest)).2.ask < (maxByBid a (b :: rest)).2.bid)
    (h3 : (minByAsk a (b :: rest)).2.ask ≠ 0)
    (h4 : ((maxByBid a (b :: rest)).2.bid - (minByAsk a (b :: rest)).2.ask)
      / (minByAsk a (b :: rest)).2.ask * 100 > minProfit + FEE_BUFFER) :
    processSymbol sym (a :: b :: rest) minProfit =
      .ok (some { symbol := sym,
                  buy_exchange := (minByAsk a (b :: rest)).1,
                  sell_exchange := (maxByBid a (b :: rest)).1,
                  buy_price := (minByAsk a (b :: rest)).2.ask,
                  sell_price := (maxByBid a (b :: rest)).2.bid,
                  profit_percent :=
                    ((maxByBid a (b :: rest)).2.bid - (minByAsk a (b :: rest)).2.ask)
                      / (minByAsk a (b :: rest)).2.ask * 100,
                  profit_amount :=
                    (maxByBid a (b :: rest)).2.bid - (minByAsk a (b :: rest)).2.ask }) := by
  unfold processSymbol
  simp only
  rw [if_pos ⟨h1, h2⟩, if_neg h3, if_pos h4]

/-- Every opportunity in the detector's output comes from some tracked
symbol's quote list via `processSymbol`. -/
theorem goSymbols_mem {md : List (String × List (String × SymQuote))} {minProfit : ℚ} :
    ∀ {syms : List String} {opps : List Opportunity} {o : Opportunity},
      goSymbols md minProfit syms = .ok opps → o ∈ opps →
      ∃ s quotes, s ∈ syms ∧ alistLookup md s = some quotes ∧
        processSymbol s quotes minProfit = .ok (some o) := by
  intro syms
  induction syms with
  | nil =>
    intro opps o h ho
    injection h with h
    subst h
    simp at ho
  | cons s ss ih =>
    intro opps o h ho
    unfold goSymbols at h
    split at h
    · obtain ⟨s2, q, hm, hlk, hp⟩ := ih h ho
      exact ⟨s2, q, List.mem_cons_of_mem _ hm, hlk, hp⟩
    · rename_i quotes hl
      split at h
      · exact absurd h (by simp)
      · obtain ⟨s2, q, hm, hlk, hp2⟩ := ih h ho
        exact ⟨s2, q, List.mem_cons_of_mem _ hm, hlk, hp2⟩
      · rename_i o2 hp
        split at h
        · exact absurd h (by simp)
        · rename_i rest hg
          injection h with h
          subst h
          rcases List.mem_cons.mp ho with h1 | h1
          · subst h1
            exact ⟨s, quotes, List.mem_cons_self _ _, hl, hp⟩
          · obtain ⟨s2, q, hm, hlk, hp2⟩ := ih hg h1
            exact ⟨s2, q, List.mem_cons_of_mem _ hm, hlk, hp2⟩

/-- With fewer than two quotes the per-symbol body is skipped. -/
theorem processSymbol_short {sym : String} {quotes : List (String × SymQuote)}
    {minProfit : ℚ} (h : quotes.length < 2) :
    processSymbol sym quotes minProfit = .ok none := by
  cases quotes with
  | nil => rfl
  | cons a t =>
    cases t with
    | nil => rfl
    | cons b rest =>
      simp only [List.length_cons] at h
      omega

/-- When every ask in the symbol's quote list is strictly positive, the
per-symbol body cannot raise. -/
theorem processSymbol_isOk_of_pos {sym : String} {quotes : List (String × SymQuote)}
    {minProfit : ℚ} (hpos : ∀ p ∈ quotes, 0 < p.2.ask) :
    ∃ r, processSymbol sym quotes minProfit = .ok r := by
  cases quotes with
  | nil => exact ⟨none, rfl⟩
  | cons a t =>
    cases t with
    | nil => exact ⟨none, rfl⟩
    | cons b rest =>
      unfold processSymbol
      simp only
      split_ifs with h1 h2 h3
      · have hm := hpos _ (minByAsk_mem (b :: rest) a)
        exact absurd h2 (ne_of_gt hm)
      · exact ⟨_, rfl⟩
      · exact ⟨_, rfl⟩
      · exact ⟨_, rfl⟩

/-- When every ask anywhere in the market data is strictly positive, the
symbol loop cannot raise. -/
theorem goSymbols_isOk_of_pos {md : List (String × List (String × SymQuote))}
    {minProfit : ℚ} (hpos : allAsksPositive md = true) :
    ∀ syms : List String, ∃ opps, goSymbols md minProfit syms = .ok opps := by
  have hmd : ∀ s quotes, alistLookup md s = some quotes → ∀ p ∈ quotes, 0 < p.2.ask := by
    intro s quotes hl p hp
    have hmem := alistLookup_mem hl
    have h1 := List.all_eq_true.mp hpos (s, quotes) hmem
    have h2 := List.all_eq_true.mp h1 p hp
    exact of_decide_eq_true h2
  intro syms
  induction syms with
  | nil => exact ⟨[], rfl⟩
  | cons s ss ih =>
    obtain ⟨opps, hops⟩ := ih
    cases hl : alistLookup md s with
    | none =>
      refine ⟨opps, ?_⟩
      unfold goSymbols
      simp only [hl]
      exact hops
    | some quotes =>
      obtain ⟨r, hr⟩ :=
        @processSymbol_isOk_of_pos s quotes minProfit (hmd s quotes hl)
      cases r with
      | none =>
        refine ⟨opps, ?_⟩
        unfold goSymbols
        simp only [hl, hr]
        exact hops
      | some o =>
        refine ⟨o :: opps, ?_⟩
        unfold goSymbols
        simp only [hl, hr, hops]

/-- Folding the per-exchange try/except accumulates exactly the
successful fetches, in exchange order. -/
theorem foldl_fetch_append (fetch : String → String → Option SymQuote) (sym : String) :
    ∀ (l : List String) (acc : List (String × SymQuote)),
      l.foldl (fun acc ex =>
        match fetch sym ex with
        | some q => acc ++ [(ex, q)]
        | none => acc) acc
      = acc ++ l.filterMap (fun ex => (fetch sym ex).map fun q => (ex, q)) := by
  intro l
  induction l with
  | nil => intro acc; simp
  | cons e l ih =>
    intro acc
    simp only [List.foldl_cons, List.filterMap_cons]
    cases hf : fetch sym e with
    | none =>
      simp only [hf]
      rw [ih]
      rfl
    | some q =>
      simp only [hf, Option.map_some]
      rw [ih]
      simp

/-- The symbol dict for one symbol is the filter of the exchange list to
the successful fetches. -/
theorem fetchSymbol_eq (fetch : String → String → Option SymQuote) (sym : String) :
    fetchSymbol fetch sym =
      EXCHANGES.filterMap (fun ex => (fetch sym ex).map fun q => (ex, q)) := by
  unfold fetchSymbol
  rw [foldl_fetch_append]
  simp

/-- Folding append-of-singletons is a map. -/
theorem foldl_append_map {α β : Type} (f : α → β) :
    ∀ (l : List α) (acc : List β),
      l.foldl (fun acc x => acc ++ [f x]) acc = acc ++ l.map f := by
  intro l
  induction l with
  | nil => intro acc; simp
  | cons x l ih =>
    intro acc
    simp only [List.foldl_cons, List.map_cons]
    rw [ih]
    simp

end ArbitrageBot

namespace AlertDedup

/-- Recording a timestamp makes it the one found by the next lookup of
the same key. -/
theorem lookupKey_recordKey :
    ∀ (entries : List (String × ℚ)) (key : String) (v : ℚ),
      lookupKey (recordKey entries key v) key = some v := by
  intro entries
  induction entries with
  | nil => intro key v; simp [recordKey, lookupKey]
  | cons p rest ih =>
    intro key v
    obtain ⟨k2, v2⟩ := p
    simp only [recordKey]
    split
    · simp [lookupKey]
    · rename_i hne
      simp only [lookupKey]
      rw [if_neg hne]
      exact ih key v

end AlertDedup

namespace ArbitrageBot

/-- Concrete run of the detector on the first scenario's market data. -/
theorem mdAB_eval : find_arbitrage_opportunities mdAB 1 = .ok [oppAB] := by
  have h1 : processSymbol "BTC/USDT" [("A", ⟨101, 100⟩), ("B", ⟨104, 103⟩)] 1 =
      .ok (some oppAB) := by
    norm_num [processSymbol, minByAsk, maxByBid, FEE_BUFFER, oppAB]
    intro h
    simp at h
  simp [find_arbitrage_opportunities, SYMBOLS, goSymbols, alistLookup, mdAB, h1]

/-- Concrete run of the detector on the second scenario's market data. -/
theorem mdAB2_eval : find_arbitrage_opportunities mdAB2 1 = .ok [] := by
  have h1 : processSymbol "BTC/USDT" [("A", ⟨101, 100⟩), ("B", ⟨201/2, 501/5⟩)] 1 =
      .ok none := by
    norm_num [processSymbol, minByAsk, maxByBid, FEE_BUFFER]
  simp [find_arbitrage_opportunities, SYMBOLS, goSymbols, alistLookup, mdAB2, h1]

/-- Positivity of all asks in the first scenario's market data. -/
theorem mdAB_pos : allAsksPositive mdAB = true := by
  norm_num [allAsksPositive, mdAB]

end ArbitrageBot

section Claims

open ArbitrageBot AlphaEngine AlertDedup ScanLoop

/-- Claim C1, counterexample: the detector does not implement the claimed
rule.  On `qThreshold` the best spread equals the minimum-plus-buffer
threshold exactly, so the claimed `≥` comparison emits while the code's
strict `>` does not; on `qNegative` the claimed exclusion of zero/negative
quotes would emit a b→c opportunity while the code, which considers the
negative quote, emits nothing. -/
theorem claim_C1_counterexample :
    (processSymbolSpec "BTC/USDT" qThreshold MIN_PROFIT_PERCENT).isSome = true ∧
    processSymbol "BTC/USDT" qThreshold MIN_PROFIT_PERCENT = .ok none ∧
    (processSymbolSpec "BTC/USDT" qNegative MIN_PROFIT_PERCENT).isSome = true ∧
    processSymbol "BTC/USDT" qNegative MIN_PROFIT_PERCENT = .ok none := by
  refine ⟨?_, ?_, ?_, ?_⟩
  · norm_num [processSymbolSpec, validQuote, minByAsk, maxByBid, FEE_BUFFER,
      MIN_PROFIT_PERCENT, qThreshold, List.filter]
    simp
  · norm_num [processSymbol, minByAsk, maxByBid, FEE_BUFFER,
      MIN_PROFIT_PERCENT, qThreshold]
  · norm_num [processSymbolSpec, validQuote, minByAsk, maxByBid, FEE_BUFFER,
      MIN_PROFIT_PERCENT, qNegative, List.filter]
    simp
  · norm_num [processSymbol, minByAsk, maxByBid, FEE_BUFFER,
      MIN_PROFIT_PERCENT, qNegative]

/-- Claim C1, amended: for a per-symbol quote mapping with at least two
entries, the detector emits an opportunity if and only if the
minimum-ask source differs from the maximum-bid source, the sell bid
strictly exceeds the buy ask, the buy ask is nonzero (a zero buy ask
raises a division error instead), and the profit percentage strictly
exceeds the configured minimum plus the fee buffer; zero/negative quotes
are not excluded from consideration. -/
theorem claim_C1_amended (sym : String) (a b : String × SymQuote)
    (rest : List (String × SymQuote)) (minProfit : ℚ) :
    emits (processSymbol sym (a :: b :: rest) minProfit) = true ↔
      ((minByAsk a (b :: rest)).1 ≠ (maxByBid a (b :: rest)).1 ∧
       (minByAsk a (b :: rest)).2.ask < (maxByBid a (b :: rest)).2.bid ∧
       (minByAsk a (b :: rest)).2.ask ≠ 0 ∧
       ((maxByBid a (b :: rest)).2.bid - (minByAsk a (b :: rest)).2.ask)
         / (minByAsk a (b :: rest)).2.ask * 100 > minProfit + FEE_BUFFER) := by
  constructor
  · intro h
    cases hp : processSymbol sym (a :: b :: rest) minProfit with
    | error e => rw [hp] at h; simp [emits] at h
    | ok oo =>
      cases oo with
      | none => rw [hp] at h; simp [emits] at h
      | some o =>
        obtain ⟨-, h1, h2, h3, h4⟩ := processSymbol_emits_elim hp
        exact ⟨h1, h2, h3, h4⟩
  · rintro ⟨h1, h2, h3, h4⟩
    rw [processSymbol_emits_intro h1 h2 h3 h4]
    rfl

/-- Claim C2: every opportunity the detector emits carries
`profit_percent = (sell_price - buy_price) / buy_price * 100`, where its
buy price is the minimum ask and its sell price the maximum bid of the
symbol's quote list. -/
theorem claim_C2 (md : List (String × List (String × SymQuote))) (minProfit : ℚ)
    (opps : List Opportunity) (o : Opportunity)
    (h : find_arbitrage_opportunities md minProfit = .ok opps) (ho : o ∈ opps) :
    o.profit_percent = (o.sell_price - o.buy_price) / o.buy_price * 100 ∧
    ∃ a b rest, alistLookup md o.symbol = some (a :: b :: rest) ∧
      o.buy_price = (minByAsk a (b :: rest)).2.ask ∧
      o.sell_price = (maxByBid a (b :: rest)).2.bid := by
  unfold find_arbitrage_opportunities at h
  obtain ⟨s, quotes, hmem, hlk, hp⟩ := goSymbols_mem h ho
  cases quotes with
  | nil => simp [processSymbol] at hp
  | cons a t =>
    cases t with
    | nil => simp [processSymbol] at hp
    | cons b rest =>
      obtain ⟨ho2, h1, h2, h3, h4⟩ := processSymbol_emits_elim hp
      subst ho2
      exact ⟨rfl, a, b, rest, hlk, rfl, rfl⟩

/-- Claim C2, witness at the first scenario's market data. -/
theorem claim_C2_witness :
    oppAB.profit_percent = (oppAB.sell_price - oppAB.buy_price) / oppAB.buy_price * 100 :=
  (claim_C2 mdAB 1 [oppAB] oppAB mdAB_eval (by simp)).1

/-- Claim C3: no emitted opportunity has equal buy and sell exchanges,
and every emitted opportunity has a sell price strictly above its buy
price. -/
theorem claim_C3 (md : List (String × List (String × SymQuote))) (minProfit : ℚ)
    (opps : List Opportunity) (o : Opportunity)
    (h : find_arbitrage_opportunities md minProfit = .ok opps) (ho : o ∈ opps) :
    o.buy_exchange ≠ o.sell_exchange ∧ o.buy_price < o.sell_price := by
  unfold find_arbitrage_opportunities at h
  obtain ⟨s, quotes, hmem, hlk, hp⟩ := goSymbols_mem h ho
  cases quotes with
  | nil => simp [processSymbol] at hp
  | cons a t =>
    cases t with
    | nil => simp [processSymbol] at hp
    | cons b rest =>
      obtain ⟨ho2, h1, h2, h3, h4⟩ := processSymbol_emits_elim hp
      subst ho2
      exact ⟨h1, h2⟩

/-- Claim C3, witness at the first scenario's market data. -/
theorem claim_C3_witness :
    oppAB.buy_exchange ≠ oppAB.sell_exchange ∧ oppAB.buy_price < oppAB.sell_price :=
  claim_C3 mdAB 1 [oppAB] oppAB mdAB_eval (by simp)

/-- Claim C4, counterexample: `mdZero`'s symbol has only one valid
non-zero quote, yet the detector does not complete normally on it — the
all-zero quote is still considered, its zero ask is selected as the buy
price and the profit computation raises `ZeroDivisionError`. -/
theorem claim_C4_counterexample :
    (([("a", (⟨0, 0⟩ : SymQuote)), ("b", ⟨5, 4⟩)].filter validQuote).length < 2) ∧
    find_arbitrage_opportunities mdZero MIN_PROFIT_PERCENT = .error () := by
  constructor
  · norm_num [validQuote, List.filter]
  · have h1 : processSymbol "BTC/USDT" [("a", ⟨0, 0⟩), ("b", ⟨5, 4⟩)]
        MIN_PROFIT_PERCENT = .error () := by
      norm_num [processSymbol, minByAsk, maxByBid, FEE_BUFFER, MIN_PROFIT_PERCENT]
      intro h
      simp at h
    simp [find_arbitrage_opportunities, SYMBOLS, goSymbols, alistLookup, mdZero, h1]

/-- Claim C4, amended: for every symbol whose quote set contains fewer
than 2 quotes — counting entries, not validity — the detector's
per-symbol body returns no opportunity and completes normally. -/
theorem claim_C4_amended (sym : String) (quotes : List (String × SymQuote))
    (minProfit : ℚ) (h : quotes.length < 2) :
    processSymbol sym quotes minProfit = .ok none :=
  processSymbol_short h

/-- Claim C4, witness at a one-quote symbol. -/
theorem claim_C4_witness :
    processSymbol "BTC/USDT" [("a", (⟨1, 1⟩ : SymQuote))] MIN_PROFIT_PERCENT = .ok none :=
  claim_C4_amended "BTC/USDT" [("a", ⟨1, 1⟩)] MIN_PROFIT_PERCENT (by decide)

/-- Claim C5: when every quoted ask price is strictly positive, the
detector is total — no branch reaches the division by a zero buy
price. -/
theorem claim_C5 (md : List (String × List (String × SymQuote))) (minProfit : ℚ)
    (h : allAsksPositive md = true) :
    (find_arbitrage_opportunities md minProfit).isOk = true := by
  obtain ⟨opps, hops⟩ := goSymbols_isOk_of_pos h SYMBOLS
  unfold find_arbitrage_opportunities
  rw [hops]
  rfl

/-- Claim C5, witness at the first scenario's market data. -/
theorem claim_C5_witness :
    allAsksPositive mdAB = true ∧ (find_arbitrage_opportunities mdAB 1).isOk = true :=
  ⟨mdAB_pos, claim_C5 mdAB 1 mdAB_pos⟩

/-- Claim C6: on quotes A bid 100 / ask 101 and B bid 103 / ask 104 with a
1% minimum threshold the detector emits exactly one opportunity — buy on
A at 101, sell on B at 103, profit within 0.01 of 1.98% — and on quotes
A bid 100 / ask 101 and B bid 100.2 / ask 100.5 it emits none. -/
theorem claim_C6 :
    find_arbitrage_opportunities mdAB 1 = .ok [oppAB] ∧
    oppAB.buy_exchange = "A" ∧ oppAB.buy_price = 101 ∧
    oppAB.sell_exchange = "B" ∧ oppAB.sell_price = 103 ∧
    197/100 < oppAB.profit_percent ∧ oppAB.profit_percent < 199/100 ∧
    find_arbitrage_opportunities mdAB2 1 = .ok [] := by
  refine ⟨mdAB_eval, rfl, rfl, rfl, rfl, ?_, ?_, mdAB2_eval⟩
  · norm_num [oppAB]
  · norm_num [oppAB]

/-- Claim C7: a transport failure surfaces only as a missing
(symbol, source) pair — the collected market data is exactly the
per-symbol filter of the exchange list to the successful fetches — and
the cycle's detection runs on all the remaining pairs. -/
theorem claim_C7 (fetch : String → String → Option SymQuote) (minProfit : ℚ) :
    get_market_data fetch =
      SYMBOLS.map (fun sym =>
        (sym, EXCHANGES.filterMap fun ex => (fetch sym ex).map fun q => (ex, q))) ∧
    scanCycle fetch minProfit =
      find_arbitrage_opportunities
        (SYMBOLS.map fun sym =>
          (sym, EXCHANGES.filterMap fun ex => (fetch sym ex).map fun q => (ex, q)))
        minProfit := by
  have hmd : get_market_data fetch = SYMBOLS.map fun sym => (sym, fetchSymbol fetch sym) := by
    unfold get_market_data
    rw [foldl_append_map (fun sym => (sym, fetchSymbol fetch sym))]
    simp
  constructor
  · rw [hmd]
    simp only [fetchSymbol_eq]
  · unfold scanCycle
    rw [hmd]
    simp only [fetchSymbol_eq]

/-- Claim C8: as long as no external interruption arrives, the scan loop
is still running after any number of cycles — a cycle whose body raises
is logged, sleeps one backoff interval, and the next cycle begins — so an
exception never terminates the loop. -/
theorem claim_C8 (outcomes : ℕ → CycleOutcome) (n : ℕ)
    (h : ∀ i, i < n → outcomes i ≠ CycleOutcome.interrupt) :
    (runLoop outcomes n).running = true ∧
    (runLoop outcomes n).cyclesCompleted = n ∧
    (runLoop outcomes n).errorsLogged =
      ((List.range n).filter fun i => decide (outcomes i = CycleOutcome.err)).length ∧
    (runLoop outcomes n).backoffSleeps = (runLoop outcomes n).errorsLogged := by
  induction n with
  | zero => exact ⟨rfl, rfl, rfl, rfl⟩
  | succ n ih =>
    have hn : ∀ i, i < n → outcomes i ≠ CycleOutcome.interrupt :=
      fun i hi => h i (Nat.lt_succ_of_lt hi)
    obtain ⟨hr, hc, he, hb⟩ := ih hn
    have hstep : runLoop outcomes (n + 1) = loopStep (outcomes n) (runLoop outcomes n) := rfl
    cases hoc : outcomes n with
    | interrupt => exact absurd hoc (h n (Nat.lt_succ_self n))
    | ok =>
      refine ⟨?_, ?_, ?_, ?_⟩ <;>
        simp [hstep, hoc, loopStep, hr, hc, he, hb, List.range_succ, List.filter_append]
    | err =>
      refine ⟨?_, ?_, ?_, ?_⟩ <;>
        simp [hstep, hoc, loopStep, hr, hc, he, hb, List.range_succ, List.filter_append]

/-- Claim C8, witness: two cycles, the first of which raises; the loop is
still running with both cycles completed and one logged error. -/
theorem claim_C8_witness :
    (runLoop (fun i => if i = 0 then CycleOutcome.err else CycleOutcome.ok) 2).running = true ∧
    (runLoop (fun i => if i = 0 then CycleOutcome.err else CycleOutcome.ok) 2).cyclesCompleted = 2 ∧
    (runLoop (fun i => if i = 0 then CycleOutcome.err else CycleOutcome.ok) 2).errorsLogged =
      ((List.range 2).filter fun i =>
        decide ((if i = 0 then CycleOutcome.err else CycleOutcome.ok) = CycleOutcome.err)).length ∧
    (runLoop (fun i => if i = 0 then CycleOutcome.err else CycleOutcome.ok) 2).backoffSleeps =
      (runLoop (fun i => if i = 0 then CycleOutcome.err else CycleOutcome.ok) 2).errorsLogged :=
  claim_C8 (fun i => if i = 0 then CycleOutcome.err else CycleOutcome.ok) 2 (by decide)

/-- Claim C9: after a `should_alert` call that returns true at `t1`, a
second call for the same key returns false when `t2 - t1` is within the
cooldown window, and returns true and records `t2` when it exceeds
it. -/
theorem claim_C9 (cooldown : ℚ) (entries : List (String × ℚ)) (key : String)
    (t1 t2 : ℚ) (hlt : t1 < t2)
    (h1 : (should_alert cooldown entries key t1).1 = true) :
    (t2 - t1 ≤ cooldown →
      (should_alert cooldown (should_alert cooldown entries key t1).2 key t2).1 = false) ∧
    (t2 - t1 > cooldown →
      (should_alert cooldown (should_alert cooldown entries key t1).2 key t2).1 = true ∧
      lookupKey (should_alert cooldown (should_alert cooldown entries key t1).2 key t2).2 key
        = some t2) := by
  have hrec : (should_alert cooldown entries key t1).2 = recordKey entries key t1 := by
    unfold should_alert at h1 ⊢
    cases hl : lookupKey entries key with
    | none =>
      simp only [hl]
    | some prev =>
      simp only [hl] at h1 ⊢
      split_ifs at h1 ⊢ with hgt
      · rfl
  rw [hrec]
  have hlk := lookupKey_recordKey entries key t1
  refine ⟨?_, ?_⟩
  · intro hle
    unfold should_alert
    simp only [hlk]
    rw [if_neg (not_lt.mpr hle)]
  · intro hgt2
    unfold should_alert
    simp only [hlk]
    rw [if_pos hgt2]
    exact ⟨rfl, lookupKey_recordKey _ key t2⟩

/-- Claim C9, witness: cooldown 30, first alert at time 0, second attempt
at time 10 is suppressed. -/
theorem claim_C9_witness :
    (should_alert 30 (should_alert 30 [] "k" 0).2 "k" 10).1 = false :=
  (claim_C9 30 [] "k" 0 10 (by norm_num) rfl).1 (by norm_num)

/-- Claim C10: for any state with nonnegative cash and holdings and any
strictly positive price, a completed `execute_trade` — any signal —
leaves cash and holdings nonnegative: a BUY spends 99% of the cash
balance and a SELL credits the full sale value and zeroes the
holding. -/
theorem claim_C10 (signal : Signal) (price : ℚ) (st st2 : EngineState)
    (hb : 0 ≤ st.balance) (hc : 0 ≤ st.btc_held) (hp : 0 < price)
    (h : execute_trade signal price st = .ok st2) :
    0 ≤ st2.balance ∧ 0 ≤ st2.btc_held := by
  have hne : price ≠ 0 := ne_of_gt hp
  simp only [execute_trade] at h
  split_ifs at h with h1 h2 h3 h4 h5
  · injection h with h
    subst h
    refine ⟨?_, ?_⟩
    · show 0 ≤ st.balance - st.balance * (99/100) / price * price
      rw [div_mul_cancel₀ _ hne]
      linarith
    · show 0 ≤ st.balance * (99/100) / price
      exact div_nonneg (mul_nonneg hb (by norm_num)) (le_of_lt hp)
  · injection h with h
    subst h
    refine ⟨?_, ?_⟩
    · show 0 ≤ st.balance + st.btc_held * price
      have hmul := mul_nonneg hc (le_of_lt hp)
      linarith
    · show (0:ℚ) ≤ 0
      norm_num
  · injection h with h
    subst h
    refine ⟨?_, ?_⟩
    · show 0 ≤ st.balance + st.btc_held * price
      have hmul := mul_nonneg hc (le_of_lt hp)
      linarith
    · show (0:ℚ) ≤ 0
      norm_num
  · injection h with h
    subst h
    exact ⟨hb, hc⟩
  · injection h with h
    subst h
    exact ⟨hb, hc⟩

/-- Claim C10, witness: a BUY at price 50 from a flat state with capital
1000 leaves 10 in cash and 19.8 units held, both nonnegative. -/
theorem claim_C10_witness : 0 ≤ egSt1.balance ∧ 0 ≤ egSt1.btc_held :=
  claim_C10 .BUY 50 egSt0 egSt1 (by norm_num [egSt0]) (by norm_num [egSt0]) (by norm_num)
    (by norm_num [execute_trade, egSt0, egSt1])

end Claims
